import Mathlib

/-!
Shallow embedding of the Mana-Calculator simulation engine
(source file: ManaAnalyzer.py, class ManaAnalyzer).

The Python code is single-threaded and uses `random.choice` and
`random.shuffle` as its only sources of randomness.  We model these by
explicit oracles: a tap search receives a tape `Nat → Nat → Nat`
(attempt index, land index → arbitrary natural), a run receives a
family `shuffles : Nat → List String` giving the shuffled copy of the
draw pile used by each trial.  `random.choice(lst)` on a nonempty list
is modelled by indexing with the oracle value modulo the length; on an
empty list Python raises IndexError, modelled by `Option.none`
propagating to the caller (as an uncaught exception aborts the run).
-/

namespace ManaCalc

/-- The three run-scoped counters of the analyzer: `successful`,
`impossible` and `total_tries` (instance fields in the source). -/
structure SimState where
  successful : Nat
  impossible : Nat
  total_tries : Nat
  deriving Repr, DecidableEq

/-- The 27 land-type labels, in the exact order of `self.land_types`. -/
def land_types : List String :=
  ["W", "U", "B", "R", "G", "WU", "UB", "BR", "RG", "GW", "WB", "BG", "GU", "UR", "RW",
   "WUG", "WUB", "UBR", "BRG", "WRG", "WBR", "URG", "WBG", "WUR", "UBG", "WUBRG", "C"]

/-- Build a land base (association list label ↦ count, in `land_types`
order) from a count function; mirrors how `load_deck` fills
`self.land_base` from the 27 numbers of the deck file. -/
def mkBase (f : String → Nat) : List (String × Nat) :=
  land_types.map (fun l => (l, f l))

/-- The five real color symbols. -/
def colors5 : List Char := ['W', 'U', 'B', 'R', 'G']

/-- Inner loop of `get_color_id` over a list of symbols: append to
`acc` every symbol that is not already present and is not `C`
(`for color in colors: if color not in deck_colors and color != "C":
deck_colors.append(color)`). -/
def addColorsL (acc : List Char) : List Char → List Char
  | [] => acc
  | c :: rest => addColorsL (if c ∉ acc ∧ c ≠ 'C' then acc ++ [c] else acc) rest

/-- Inner loop of `get_color_id` for one label. -/
def addColors (acc : List Char) (land : String) : List Char :=
  addColorsL acc land.toList

/-- Loop of `get_color_id` over the land base: labels other than
`"WUBRG"` with nonzero count contribute their symbols (minus `C`), and
the loop breaks as soon as five colors have been collected. -/
def get_color_id_go : List (String × Nat) → List Char → List Char
  | [], acc => acc
  | (land, number) :: rest, acc =>
    if land ≠ "WUBRG" ∧ number ≠ 0 then
      let acc2 := addColors acc land
      if acc2.length = 5 then acc2 else get_color_id_go rest acc2
    else get_color_id_go rest acc

/-- `get_color_id`: derive the deck's color identity from the land
base (the source stores it in `self.deck_colors`). -/
def get_color_id (lb : List (String × Nat)) : List Char :=
  get_color_id_go lb []

/-- Spec-side definition, for comparison with `get_color_id` only:
the union of the color symbols of ALL labels with nonzero count
(including the five-color label `WUBRG`), excluding only the single
wildcard symbol `C`, as the spec's words describe the required color
set. -/
def requiredUnionSpec (lb : List (String × Nat)) : List Char :=
  lb.foldl (fun acc p => if p.2 ≠ 0 then addColors acc p.1 else acc) []

/-- `random.choice` on a list of characters, driven by an oracle value
`r`: a uniform pick is some index into the list, modelled as `r`
modulo the length; Python raises IndexError on an empty list
(`none`). -/
def listChoice (l : List Char) (r : Nat) : Option Char :=
  if h : 0 < l.length then some (l.get ⟨r % l.length, Nat.mod_lt r h⟩) else none

/-- Tapping a single drawn land (body of the inner loop of
`analyze_tap_options`): a label of five symbols taps a random member of
`deck_colors`, any other label taps a random member of its own
symbols. -/
def tap_one (dc : List Char) (draw : String) (r : Nat) : Option Char :=
  if draw.toList.length = 5 then listChoice dc r else listChoice draw.toList r

/-- One tap attempt over the drawn hand: tap every land in order,
collecting the distinct produced symbols in `available` (appended in
first-production order).  `i` is the position of the next land, used to
address the oracle `rnd`. -/
def tapAttempt (dc : List Char) (rnd : Nat → Nat) :
    List String → Nat → List Char → Option (List Char)
  | [], _, available => some available
  | draw :: rest, i, available =>
    match tap_one dc draw (rnd i) with
    | none => none
    | some tapped =>
      tapAttempt dc rnd rest (i + 1)
        (if tapped ∈ available then available else available ++ [tapped])

/-- The attempt loop of `analyze_tap_options` (`for n in
range(self.max_tap_tries)`): `n` is the current zero-indexed attempt,
`r` the number of attempts still allowed (callers use `n = 0`,
`r = maxT`).  A successful attempt (as the source tests it: the NUMBER
of distinct produced symbols equals the number of deck colors)
increments `successful`, adds `n` to `total_tries` and stops; an
exhausted budget adds `maxT` to `total_tries`. -/
def tapLoop (dc : List Char) (maxT : Nat) (draws : List String)
    (tape : Nat → Nat → Nat) : Nat → Nat → SimState → Option SimState
  | _, 0, s => some { s with total_tries := s.total_tries + maxT }
  | n, r + 1, s =>
    match tapAttempt dc (tape n) draws 0 [] with
    | none => none
    | some available =>
      if available.length = dc.length then
        some { s with successful := s.successful + 1, total_tries := s.total_tries + n }
      else tapLoop dc maxT draws tape (n + 1) r s

/-- `analyze_tap_options`: randomized tap search over the drawn hand,
with the per-attempt random picks supplied by `tape`. -/
def analyze_tap_options (dc : List Char) (maxT : Nat) (draws : List String)
    (tape : Nat → Nat → Nat) (s : SimState) : Option SimState :=
  tapLoop dc maxT draws tape 0 maxT s

/-- `check_availability`: a hand with fewer lands than deck colors is
infeasible (no counter update in the source); otherwise, if some deck
color occurs in no drawn label, the hand is infeasible and `impossible`
is incremented once; otherwise the hand is feasible. -/
def check_availability (dc : List Char) (s : SimState) (draws : List String) :
    Bool × SimState :=
  if draws.length < dc.length then (false, s)
  else
    let all_possible_colors := draws.foldl (fun acc d => acc ++ d.toList) []
    if dc.all (fun c => decide (c ∈ all_possible_colors)) then (true, s)
    else (false, { s with impossible := s.impossible + 1 })

/-- One trial of `run_simulation`: take the first `nLands` labels of
the shuffled deck, run the feasibility check, and if feasible run the
tap search. -/
def runTrial (dc : List Char) (maxT nLands : Nat) (deck : List String)
    (tape : Nat → Nat → Nat) (s : SimState) : Option SimState :=
  let draws := deck.take nLands
  let p := check_availability dc s draws
  if p.1 then analyze_tap_options dc maxT draws tape p.2 else some p.2

/-- The trial loop of `run_simulation`: `t` is the index of the next
trial (addressing the oracles), `k` the number of trials left. -/
def runTrials (dc : List Char) (maxT nLands : Nat) (shuffles : Nat → List String)
    (tapes : Nat → Nat → Nat → Nat) : Nat → Nat → SimState → Option SimState
  | _, 0, s => some s
  | t, k + 1, s =>
    match runTrial dc maxT nLands (shuffles t) (tapes t) s with
    | none => none
    | some s1 => runTrials dc maxT nLands shuffles tapes (t + 1) k s1

/-- Rounding to two decimal digits, modelling Python's `round(x, 2)`
on the reported statistics: round to the nearest hundredth
(tie-breaking at exact half-cent ties is not relied on by any theorem
below). -/
def round2 (q : Rat) : Rat := ((⌊q * 100 + 1 / 2⌋ : Int) : Rat) / 100

/-- The two statistics computed at the end of `run_simulation`:
`round(total_tries / (n_of_simulations - impossible), 2)` and
`round(successful * 100.0 / n_of_simulations, 2)`.  A zero denominator
raises ZeroDivisionError in Python, modelled by `none`. -/
def reportStats (nSims : Nat) (s : SimState) : Option (Rat × Rat) :=
  let denom : Int := (nSims : Int) - (s.impossible : Int)
  if denom = 0 then none
  else
    some (round2 ((s.total_tries : Rat) / (denom : Rat)),
          round2 ((s.successful : Rat) * 100 / (nSims : Rat)))

/-- `run_simulation` (with `initialize` inlined for a fresh analyzer):
derive the color identity, run `nSims` trials from zeroed counters,
then compute the two reported statistics.  A trial aborted by an
IndexError inside the tap search aborts the whole run (`none`). -/
def run_simulation (lb : List (String × Nat)) (nLands nSims maxT : Nat)
    (shuffles : Nat → List String) (tapes : Nat → Nat → Nat → Nat) :
    Option (Rat × Rat) :=
  let dc := get_color_id lb
  (runTrials dc maxT nLands shuffles tapes 0 nSims ⟨0, 0, 0⟩).bind (reportStats nSims)

/-- The whole mutable instance state of a `ManaAnalyzer` object that
the simulation touches. -/
structure Analyzer where
  deck_colors : List Char
  successful : Nat
  impossible : Nat
  total_tries : Nat
  draw_pile : List String
  deriving Repr, DecidableEq

/-- A freshly constructed analyzer instance (`__init__`): all counters
zero, empty draw pile. -/
def freshAnalyzer : Analyzer := ⟨[], 0, 0, 0, []⟩

/-- Pool construction of `load_deck`: append each label `count` times
to the EXISTING `draw_pile` (the source never clears the pile). -/
def build_pool (lb : List (String × Nat)) (pile : List String) : List String :=
  lb.foldl (fun p kv => p ++ List.replicate kv.2 kv.1) pile

/-- The `initialize` method: `reset` (zero the counters, clear the
color identity) followed by `load_deck` (append the land base to the
draw pile) and `get_color_id`. -/
def initAnalyzer (lb : List (String × Nat)) (a : Analyzer) : Analyzer :=
  { deck_colors := get_color_id lb, successful := 0, impossible := 0,
    total_tries := 0, draw_pile := build_pool lb a.draw_pile }

/-- `k` successive calls of `initialize` (one per `run_simulation`
call) on the same fresh instance. -/
def initIter (lb : List (String × Nat)) : Nat → Analyzer
  | 0 => freshAnalyzer
  | k + 1 => initAnalyzer lb (initIter lb k)

/-- Total land count of a land base. -/
def totalLands (lb : List (String × Nat)) : Nat :=
  (lb.map (fun p => p.2)).sum

/-- Concrete land base for C3: four `WUBRG` lands and nothing else. -/
def lb_c3 : List (String × Nat) := mkBase fun l => if l = "WUBRG" then 4 else 0

/-- Concrete land base for C6: nine `W` lands and one `U` land. -/
def lb_c6 : List (String × Nat) := mkBase fun l => if l = "W" then 9 else if l = "U" then 1 else 0

/-- Concrete land base for C7: a single `W` land. -/
def lb_c7 : List (String × Nat) := mkBase fun l => if l = "W" then 1 else 0

/-- Concrete land base for C8: two `W` lands. -/
def lb_c8 : List (String × Nat) := mkBase fun l => if l = "W" then 2 else 0

/-- Concrete land base for C5's and C9's witnesses: a single `W` land
(as a bare association list; the engine accepts any label/count list). -/
def lb_w1 : List (String × Nat) := [("W", 1)]

/-- Concrete land base for C3's witness: two `WU` lands and one
colorless land. -/
def lb_c3w : List (String × Nat) := [("WU", 2), ("C", 1)]

end ManaCalc

namespace ManaCalc

/-- Rounding an integer value to two decimals leaves it unchanged. -/
theorem round2_natCast (n : Nat) : round2 ((n : Rat)) = n := by
  have h1 : ((n : Rat)) * 100 + 1 / 2 = ((n * 100 : Int) : Rat) + 1 / 2 := by push_cast; ring
  have h2 : ⌊((n * 100 : Int) : Rat) + 1 / 2⌋ = (n * 100 : Int) + ⌊(1 / 2 : Rat)⌋ :=
    Int.floor_int_add _ _
  have h3 : ⌊(1 / 2 : Rat)⌋ = 0 := by
    rw [Int.floor_eq_iff]
    norm_num
  rw [round2, h1, h2, h3]
  push_cast
  field_simp

/-- Rounding zero to two decimals gives zero. -/
theorem round2_zero : round2 0 = 0 := by
  simpa using round2_natCast 0

/-- Claim C2 (code_bug evidence): with required colors `['W', 'U']`, a
one-land hand is classified infeasible by `check_availability` but the
`impossible` counter is NOT incremented (first conjunct), unlike the
missing-color case with a two-land hand, which does increment it
(second conjunct); a whole trial with a one-land draw therefore leaves
all three counters unchanged (third conjunct). -/
theorem c2_short_hand_no_increment :
    check_availability ['W', 'U'] ⟨0, 0, 0⟩ ["W"] = (false, ⟨0, 0, 0⟩) ∧
    check_availability ['W', 'U'] ⟨0, 0, 0⟩ ["W", "W"] = (false, ⟨0, 1, 0⟩) ∧
    runTrial ['W', 'U'] 50 1 ["W", "U"] (fun _ _ => 0) ⟨0, 0, 0⟩ = some ⟨0, 0, 0⟩ := by
  decide

/-- Claim C6 (code_bug evidence): on the land base with nine `W` lands
and one `U` land, drawing two lands from an unshuffled pool copy, both
trials hit the missing-color branch, so `impossible` equals the trial
count and the final division has a zero denominator: the run aborts
(Python raises ZeroDivisionError), it neither detects nor reports a
degenerate-run condition. -/
theorem c6_degenerate_run_zero_division :
    get_color_id lb_c6 = ['W', 'U'] ∧
    run_simulation lb_c6 2 2 50 (fun _ => build_pool lb_c6 []) (fun _ _ _ => 0) = none := by
  constructor
  · decide
  · have h1 : runTrials (get_color_id lb_c6) 50 2 (fun _ => build_pool lb_c6 [])
        (fun _ _ _ => 0) 0 2 ⟨0, 0, 0⟩ = some ⟨0, 2, 0⟩ := by decide
    rw [run_simulation, h1]
    simp [reportStats]

/-- Claim C8 (code_bug evidence): with a draw pool of two lands and a
hand size of five, `run_simulation` is not rejected: the slice
truncates the hand to the whole pool and the run completes with
reported statistics. -/
theorem c8_oversized_hand_runs_anyway :
    (build_pool lb_c8 []).length = 2 ∧ 2 < 5 ∧
    run_simulation lb_c8 5 1 50 (fun _ => build_pool lb_c8 []) (fun _ _ _ => 0) =
      some (0, 100) := by
  refine ⟨by decide, by norm_num, ?_⟩
  have h1 : runTrials (get_color_id lb_c8) 50 5 (fun _ => build_pool lb_c8 [])
      (fun _ _ _ => 0) 0 1 ⟨0, 0, 0⟩ = some ⟨1, 0, 0⟩ := by decide
  rw [run_simulation, h1]
  simp only [Option.bind_some, reportStats]
  norm_num
  constructor
  · simpa using round2_natCast 0
  · simpa using round2_natCast 100

/-- Counterexample to Claim C1 as stated: with required colors
`['W', 'U']`, the hand `["WU", "C"]` is FEASIBLE (first conjunct:
`check_availability` passes, so the tap search is reached), and with
picks that always tap `'W'` from the `WU` land, every tap attempt
produces exactly `['W', 'C']`, which as a set differs from the
required set (`'U' ∉ ['W', 'C']`); yet the code counts a success on
attempt 0 (final state `⟨1, 0, 0⟩`) instead of the exhaustion outcome
the claim prescribes (`⟨0, 0, 3⟩`). -/
theorem c1_set_equality_counterexample :
    check_availability ['W', 'U'] ⟨0, 0, 0⟩ ["WU", "C"] = (true, ⟨0, 0, 0⟩) ∧
    analyze_tap_options ['W', 'U'] 3 ["WU", "C"] (fun _ _ => 0) ⟨0, 0, 0⟩ = some ⟨1, 0, 0⟩ ∧
    tapAttempt ['W', 'U'] (fun _ => 0) ["WU", "C"] 0 [] = some ['W', 'C'] ∧
    'U' ∉ (['W', 'C'] : List Char) := by
  decide

/-- Counterexample to Claim C3 as stated: on a land base whose only
nonzero label is `WUBRG`, the derived color identity is empty, while
the union the claim describes (including `WUBRG`'s own symbols) is all
five colors. -/
theorem c3_wubrg_contribution_counterexample :
    get_color_id lb_c3 = [] ∧ requiredUnionSpec lb_c3 = ['W', 'U', 'B', 'R', 'G'] := by
  decide

/-- Counterexample to Claim C4 as stated: a drawn `C` land taps the
literal symbol `'C'`, which is not a member of the required color set
`['W', 'U']`. -/
theorem c4_c_land_counterexample :
    tap_one ['W', 'U'] "C" 5 = some 'C' ∧ 'C' ∉ (['W', 'U'] : List Char) := by
  decide

/-- Counterexample to Claim C7 as stated: after a second `initialize`
on the same instance the draw pool holds two entries although the land
base sums to one (the pool is appended to, never cleared). -/
theorem c7_second_call_counterexample :
    totalLands lb_c7 = 1 ∧ (initIter lb_c7 2).draw_pile = ["W", "W"] ∧
    (initIter lb_c7 2).draw_pile.length ≠ totalLands lb_c7 := by
  decide

/-- Counterexample to Claim C10 as stated: with an empty required
color set, the hand `["C"]` contains no `WUBRG` land yet does NOT
succeed on attempt 0: every attempt produces `['C']` (length 1 ≠ 0),
so the search exhausts its budget of 2 and charges it in full. -/
theorem c10_c_hand_counterexample :
    "WUBRG" ∉ (["C"] : List String) ∧
    analyze_tap_options [] 2 ["C"] (fun _ _ => 0) ⟨0, 0, 0⟩ = some ⟨0, 0, 2⟩ := by
  decide

/-- Claim C4 (amended): in the tap search a drawn `C` land always taps
the literal symbol `'C'` (the chooser's-pick branch applies only to
labels of five symbols), while a drawn `WUBRG` land taps a member of
the (nonempty) required color set. -/
theorem c4_tap_domains_amended (dc : List Char) (r : Nat) (h : dc ≠ []) :
    tap_one dc "C" r = some 'C' ∧ ∃ c, tap_one dc "WUBRG" r = some c ∧ c ∈ dc := by
  constructor
  · have hc : "C".toList = ['C'] := rfl
    simp [tap_one, listChoice, hc, Nat.mod_one]
  · have h5 : "WUBRG".toList.length = 5 := rfl
    have hlen : 0 < dc.length := List.length_pos.mpr h
    refine ⟨dc.get ⟨r % dc.length, Nat.mod_lt r hlen⟩, ?_, List.get_mem dc _ _⟩
    simp [tap_one, listChoice, h5, hlen]

/-- Witness for C4's amended theorem at `dc = ['W']`, `r = 0`. -/
theorem c4_tap_domains_witness :
    (['W'] : List Char) ≠ [] ∧
    (tap_one ['W'] "C" 0 = some 'C' ∧ ∃ c, tap_one ['W'] "WUBRG" 0 = some c ∧ c ∈ ['W']) :=
  ⟨by decide, c4_tap_domains_amended ['W'] 0 (by decide)⟩

/-- Claim C5: for every completed run with a nonzero denominator, the
two reported statistics are exactly
`averageAttempts = round2 (total_tries / (nSims - impossible))` and
`successRate = round2 (100 * successful / nSims)` computed from the
final counter values of the trial loop. -/
theorem c5_reported_statistics (lb : List (String × Nat)) (nLands nSims maxT : Nat)
    (shuffles : Nat → List String) (tapes : Nat → Nat → Nat → Nat) (s : SimState)
    (h : runTrials (get_color_id lb) maxT nLands shuffles tapes 0 nSims ⟨0, 0, 0⟩ = some s)
    (hne : (nSims : Int) - (s.impossible : Int) ≠ 0) :
    run_simulation lb nLands nSims maxT shuffles tapes =
      some (round2 ((s.total_tries : Rat) / (((nSims : Int) - (s.impossible : Int) : Int) : Rat)),
            round2 ((s.successful : Rat) * 100 / (nSims : Rat))) := by
  rw [run_simulation, h]
  simp only [Option.some_bind, reportStats]
  rw [if_neg hne]

/-- Witness for C5 at the one-trial run on `lb_w1`. -/
theorem c5_reported_statistics_witness :
    runTrials (get_color_id lb_w1) 2 1 (fun _ => ["W"]) (fun _ _ _ => 0) 0 1 ⟨0, 0, 0⟩ =
      some ⟨1, 0, 0⟩ ∧
    ((1 : Nat) : Int) - (((0 : Nat)) : Int) ≠ 0 ∧
    run_simulation lb_w1 1 1 2 (fun _ => ["W"]) (fun _ _ _ => 0) =
      some (round2 (((0 : Nat) : Rat) / ((((1 : Nat) : Int) - (((0 : Nat)) : Int) : Int) : Rat)),
            round2 (((1 : Nat) : Rat) * 100 / ((1 : Nat) : Rat))) :=
  ⟨by decide, by decide,
    c5_reported_statistics lb_w1 1 1 2 (fun _ => ["W"]) (fun _ _ _ => 0) ⟨1, 0, 0⟩
      (by decide) (by decide)⟩

/-- `load_deck` appends to the existing pile: building from `pile` is
building from scratch appended after `pile`. -/
theorem build_pool_append (lb : List (String × Nat)) (pile : List String) :
    build_pool lb pile = pile ++ build_pool lb [] := by
  induction lb generalizing pile with
  | nil => simp [build_pool]
  | cons kv rest ih =>
    show build_pool rest (pile ++ List.replicate kv.2 kv.1) =
      pile ++ build_pool rest ([] ++ List.replicate kv.2 kv.1)
    rw [ih (pile ++ List.replicate kv.2 kv.1), ih ([] ++ List.replicate kv.2 kv.1)]
    simp

/-- The pool built from an empty pile has one entry per land. -/
theorem build_pool_nil_length (lb : List (String × Nat)) :
    (build_pool lb []).length = totalLands lb := by
  induction lb with
  | nil => rfl
  | cons kv rest ih =>
    show (build_pool rest ([] ++ List.replicate kv.2 kv.1)).length = totalLands (kv :: rest)
    rw [build_pool_append]
    simp [totalLands, ih]

/-- Claim C7 (amended): the three aggregate counters are zero after
every `initialize` call, but the draw pile is only appended to, never
cleared: after the `k`-th call on the same instance it holds each
label `k` times its land-base count, and `k` times the total land
count in all; the claim's invariant `len(pool) = sum(counts)` holds
only for `k = 1`. -/
theorem c7_pool_counters_amended (lb : List (String × Nat)) (k : Nat) (l : String) :
    (initIter lb k).successful = 0 ∧ (initIter lb k).impossible = 0 ∧
    (initIter lb k).total_tries = 0 ∧
    (initIter lb k).draw_pile.length = k * totalLands lb ∧
    (initIter lb k).draw_pile.count l = k * ((build_pool lb []).count l) := by
  induction k with
  | zero =>
    exact ⟨rfl, rfl, rfl, by simp [initIter, freshAnalyzer], by simp [initIter, freshAnalyzer]⟩
  | succ k ih =>
    refine ⟨rfl, rfl, rfl, ?_, ?_⟩
    · show (build_pool lb (initIter lb k).draw_pile).length = (k + 1) * totalLands lb
      rw [build_pool_append]
      simp only [List.length_append, ih.2.2.2.1, build_pool_nil_length]
      ring
    · show (build_pool lb (initIter lb k).draw_pile).count l = (k + 1) * (build_pool lb []).count l
      rw [build_pool_append]
      simp only [List.count_append, ih.2.2.2.2]
      ring

/-- A `C` land always taps the symbol `C` itself, whatever the color
identity. -/
theorem tap_one_c (dc : List Char) (r : Nat) : tap_one dc "C" r = some 'C' := by
  have hc : "C".toList = ['C'] := rfl
  simp [tap_one, listChoice, hc, Nat.mod_one]

/-- With an empty color identity, tapping a `WUBRG` land faults
(`random.choice` on an empty list raises IndexError). -/
theorem tap_one_wubrg_empty (r : Nat) : tap_one [] "WUBRG" r = none := by
  have h5 : "WUBRG".toList.length = 5 := rfl
  simp [tap_one, listChoice, h5]

/-- With an empty color identity, any tap attempt over a hand that
contains a `WUBRG` land faults. -/
theorem tapAttempt_wubrg_none (rnd : Nat → Nat) :
    ∀ (draws : List String) (i : Nat) (acc : List Char), "WUBRG" ∈ draws →
      tapAttempt [] rnd draws i acc = none := by
  intro draws
  induction draws with
  | nil => intro i acc hmem; exact absurd hmem (List.not_mem_nil _)
  | cons d rest ih =>
    intro i acc hmem
    by_cases hd : d = "WUBRG"
    · subst hd
      show (match tap_one [] "WUBRG" (rnd i) with
        | none => none
        | some tapped => tapAttempt [] rnd rest (i + 1)
            (if tapped ∈ acc then acc else acc ++ [tapped])) = none
      rw [tap_one_wubrg_empty]
    · have hrest : "WUBRG" ∈ rest := by
        rcases List.mem_cons.mp hmem with h1 | h1
        · exact absurd h1.symm hd
        · exact h1
      show (match tap_one [] d (rnd i) with
        | none => none
        | some tapped => tapAttempt [] rnd rest (i + 1)
            (if tapped ∈ acc then acc else acc ++ [tapped])) = none
      cases tap_one [] d (rnd i) with
      | none => rfl
      | some tapped => exact ih (i + 1) _ hrest

/-- With an empty color identity, a tap attempt over an all-`C` hand
never adds anything beyond `C`. -/
theorem tapAttempt_all_c (rnd : Nat → Nat) :
    ∀ (draws : List String), (∀ d ∈ draws, d = "C") →
      ∀ (i : Nat) (acc : List Char), 'C' ∈ acc →
        tapAttempt [] rnd draws i acc = some acc := by
  intro draws
  induction draws with
  | nil => intro _ i acc _; rfl
  | cons d rest ih =>
    intro hall i acc hc
    have hd : d = "C" := hall d (List.mem_cons_self d rest)
    subst hd
    show (match tap_one [] "C" (rnd i) with
      | none => none
      | some tapped => tapAttempt [] rnd rest (i + 1)
          (if tapped ∈ acc then acc else acc ++ [tapped])) = some acc
    rw [tap_one_c]
    simp only [if_pos hc]
    exact ih (fun d hmem => hall d (List.mem_cons_of_mem _ hmem)) (i + 1) acc hc

/-- With an empty color identity, a nonempty all-`C` hand produces
exactly `['C']` on every attempt. -/
theorem tapAttempt_c_hand (rnd : Nat → Nat) (draws : List String)
    (hne : draws ≠ []) (hall : ∀ d ∈ draws, d = "C") :
    tapAttempt [] rnd draws 0 [] = some ['C'] := by
  cases draws with
  | nil => exact absurd rfl hne
  | cons d rest =>
    have hd : d = "C" := hall d (List.mem_cons_self d rest)
    subst hd
    show (match tap_one [] "C" (rnd 0) with
      | none => none
      | some tapped => tapAttempt [] rnd rest 1
          (if tapped ∈ ([] : List Char) then [] else [] ++ [tapped])) = some ['C']
    rw [tap_one_c]
    simp only [List.not_mem_nil, if_false, List.nil_append]
    exact tapAttempt_all_c rnd rest
      (fun d hmem => hall d (List.mem_cons_of_mem _ hmem)) 1 ['C'] (List.mem_singleton.mpr rfl)

/-- If every attempt yields a color list of the wrong length, the tap
loop exhausts its budget and charges `maxT` tries. -/
theorem tapLoop_exhaust (dc : List Char) (maxT : Nat) (draws : List String)
    (tape : Nat → Nat → Nat)
    (hfail : ∀ n av, tapAttempt dc (tape n) draws 0 [] = some av → av.length ≠ dc.length)
    (hsome : ∀ n, tapAttempt dc (tape n) draws 0 [] ≠ none) :
    ∀ (r n : Nat) (s : SimState),
      tapLoop dc maxT draws tape n r s = some { s with total_tries := s.total_tries + maxT } := by
  intro r
  induction r with
  | zero => intro n s; rfl
  | succ r ih =>
    intro n s
    show (match tapAttempt dc (tape n) draws 0 [] with
      | none => none
      | some available =>
        if available.length = dc.length then
          some { s with successful := s.successful + 1, total_tries := s.total_tries + n }
        else tapLoop dc maxT draws tape (n + 1) r s) =
      some { s with total_tries := s.total_tries + maxT }
    cases hattempt : tapAttempt dc (tape n) draws 0 [] with
    | none => exact absurd hattempt (hsome n)
    | some av =>
      simp only [if_neg (hfail n av hattempt)]
      exact ih (n + 1) s

/-- Claim C10 (amended): with an empty required color set, every hand
passes the feasibility check; a hand containing a `WUBRG` land makes
the tap search fault (IndexError: random choice from the empty
required set); an EMPTY hand succeeds on attempt 0; but a nonempty
`WUBRG`-free hand of `C` lands never succeeds — every attempt
produces exactly `['C']`, of length 1 ≠ 0 — and is charged the full
attempt budget. -/
theorem c10_empty_required_amended (draws : List String) (tape : Nat → Nat → Nat)
    (maxT : Nat) (s : SimState) (hmax : 1 ≤ maxT) :
    check_availability [] s draws = (true, s) ∧
    ("WUBRG" ∈ draws → analyze_tap_options [] maxT draws tape s = none) ∧
    analyze_tap_options [] maxT [] tape s = some { s with successful := s.successful + 1 } ∧
    (draws ≠ [] → (∀ d ∈ draws, d = "C") →
      analyze_tap_options [] maxT draws tape s =
        some { s with total_tries := s.total_tries + maxT }) := by
  obtain ⟨m, rfl⟩ : ∃ m, maxT = m + 1 := ⟨maxT - 1, by omega⟩
  refine ⟨?_, ?_, ?_, ?_⟩
  · simp [check_availability]
  · intro hmem
    show tapLoop [] (m + 1) draws tape 0 (m + 1) s = none
    show (match tapAttempt [] (tape 0) draws 0 [] with
      | none => none
      | some available =>
        if available.length = ([] : List Char).length then
          some { s with successful := s.successful + 1, total_tries := s.total_tries + 0 }
        else tapLoop [] (m + 1) draws tape 1 m s) = none
    rw [tapAttempt_wubrg_none (tape 0) draws 0 [] hmem]
  · show tapLoop [] (m + 1) [] tape 0 (m + 1) s =
      some { s with successful := s.successful + 1 }
    show (match tapAttempt [] (tape 0) [] 0 [] with
      | none => none
      | some available =>
        if available.length = ([] : List Char).length then
          some { s with successful := s.successful + 1, total_tries := s.total_tries + 0 }
        else tapLoop [] (m + 1) [] tape 1 m s) =
      some { s with successful := s.successful + 1 }
    rfl
  · intro hne hall
    exact tapLoop_exhaust [] (m + 1) draws tape
      (fun n av hav => by
        rw [tapAttempt_c_hand (tape n) draws hne hall] at hav
        cases hav
        decide)
      (fun n => by rw [tapAttempt_c_hand (tape n) draws hne hall]; exact Option.some_ne_none _)
      (m + 1) 0 s

/-- Witness for C10's amended theorem at the all-`C` hand `["C"]` with
one allowed attempt. -/
theorem c10_empty_required_witness :
    1 ≤ 1 ∧
    (check_availability [] ⟨0, 0, 0⟩ ["C"] = (true, ⟨0, 0, 0⟩) ∧
     ("WUBRG" ∈ (["C"] : List String) →
       analyze_tap_options [] 1 ["C"] (fun _ _ => 0) ⟨0, 0, 0⟩ = none) ∧
     analyze_tap_options [] 1 [] (fun _ _ => 0) ⟨0, 0, 0⟩ =
       some { SimState.mk 0 0 0 with successful := 0 + 1 } ∧
     ((["C"] : List String) ≠ [] → (∀ d ∈ (["C"] : List String), d = "C") →
       analyze_tap_options [] 1 ["C"] (fun _ _ => 0) ⟨0, 0, 0⟩ =
         some { SimState.mk 0 0 0 with total_tries := 0 + 1 })) :=
  ⟨Nat.le_refl 1, c10_empty_required_amended ["C"] (fun _ _ => 0) 1 ⟨0, 0, 0⟩ (Nat.le_refl 1)⟩

/-- Characterization of the attempt loop of `analyze_tap_options`
started at attempt `n` with `r` attempts left: either some first
attempt `j` in `[n, n + r)` produces a color list whose LENGTH equals
the number of deck colors — then `successful` is incremented and `j`
is added to `total_tries` — or no attempt does and `maxT` is added to
`total_tries`. -/
theorem tapLoop_spec (dc : List Char) (maxT : Nat) (draws : List String)
    (tape : Nat → Nat → Nat) (s : SimState) :
    ∀ (r n : Nat) (s2 : SimState), tapLoop dc maxT draws tape n r s = some s2 →
      (∃ j, n ≤ j ∧ j < n + r ∧
        (∃ av, tapAttempt dc (tape j) draws 0 [] = some av ∧ av.length = dc.length) ∧
        (∀ m, n ≤ m → m < j → ∀ av, tapAttempt dc (tape m) draws 0 [] = some av →
          av.length ≠ dc.length) ∧
        s2 = { s with successful := s.successful + 1, total_tries := s.total_tries + j }) ∨
      ((∀ m, n ≤ m → m < n + r → ∀ av, tapAttempt dc (tape m) draws 0 [] = some av →
          av.length ≠ dc.length) ∧
        s2 = { s with total_tries := s.total_tries + maxT }) := by
  intro r
  induction r with
  | zero =>
    intro n s2 h
    right
    refine ⟨fun m hm1 hm2 => absurd hm2 (by omega), ?_⟩
    exact (Option.some.inj h).symm
  | succ r ih =>
    intro n s2 h
    have h2 : (match tapAttempt dc (tape n) draws 0 [] with
      | none => none
      | some available =>
        if available.length = dc.length then
          some { s with successful := s.successful + 1, total_tries := s.total_tries + n }
        else tapLoop dc maxT draws tape (n + 1) r s) = some s2 := h
    cases hatt : tapAttempt dc (tape n) draws 0 [] with
    | none =>
      rw [hatt] at h2
      have h3 : (none : Option SimState) = some s2 := h2
      exact absurd h3 (by simp)
    | some av =>
      rw [hatt] at h2
      have h3 : (if av.length = dc.length then
          some { s with successful := s.successful + 1, total_tries := s.total_tries + n }
        else tapLoop dc maxT draws tape (n + 1) r s) = some s2 := h2
      by_cases hlen : av.length = dc.length
      · rw [if_pos hlen] at h3
        left
        refine ⟨n, Nat.le_refl n, by omega, ⟨av, hatt, hlen⟩, ?_, (Option.some.inj h3).symm⟩
        intro m hm1 hm2
        exact absurd hm2 (by omega)
      · rw [if_neg hlen] at h3
        rcases ih (n + 1) s2 h3 with ⟨j, hj1, hj2, hsucc, hfailb, hs2⟩ | ⟨hfail, hs2⟩
        · left
          refine ⟨j, by omega, by omega, hsucc, ?_, hs2⟩
          intro m hm1 hm2 av2 hav2
          rcases Nat.eq_or_lt_of_le hm1 with heq | hlt
          · rw [← heq] at hav2
            rw [hatt] at hav2
            rw [← Option.some.inj hav2]
            exact hlen
          · exact hfailb m hlt hm2 av2 hav2
        · right
          refine ⟨?_, hs2⟩
          intro m hm1 hm2 av2 hav2
          rcases Nat.eq_or_lt_of_le hm1 with heq | hlt
          · rw [← heq] at hav2
            rw [hatt] at hav2
            rw [← Option.some.inj hav2]
            exact hlen
          · exact hfail m hlt (by omega) av2 hav2

/-- Claim C1 (amended): for every feasible hand (one that passes
`check_availability`) and every required color set, the tap search
performs at most `maxT` attempts; on the first attempt whose NUMBER
of distinct produced symbols equals the size of the required color
set (the source's success test — which coincides with set equality
only for hands without `C` lands), it increments the success count,
adds the zero-indexed attempt number to the cumulative-attempts total
and stops; if no attempt within the cap passes the test, it adds
exactly `maxT` to the total and leaves the success count
unchanged. -/
theorem c1_tap_search_amended (dc : List Char) (maxT : Nat) (draws : List String)
    (tape : Nat → Nat → Nat) (s s2 : SimState)
    (_hfeas : (check_availability dc s draws).1 = true)
    (h : analyze_tap_options dc maxT draws tape s = some s2) :
    (∃ j < maxT,
      (∃ av, tapAttempt dc (tape j) draws 0 [] = some av ∧ av.length = dc.length) ∧
      (∀ m < j, ∀ av, tapAttempt dc (tape m) draws 0 [] = some av →
        av.length ≠ dc.length) ∧
      s2 = { s with successful := s.successful + 1, total_tries := s.total_tries + j }) ∨
    ((∀ m < maxT, ∀ av, tapAttempt dc (tape m) draws 0 [] = some av →
        av.length ≠ dc.length) ∧
      s2 = { s with total_tries := s.total_tries + maxT }) := by
  rcases tapLoop_spec dc maxT draws tape s maxT 0 s2 h with
    ⟨j, _, hj2, hsucc, hfail, hs2⟩ | ⟨hfail, hs2⟩
  · exact Or.inl ⟨j, by omega, hsucc, fun m hm => hfail m (Nat.zero_le m) hm, hs2⟩
  · exact Or.inr ⟨fun m hm => hfail m (Nat.zero_le m) (by omega), hs2⟩

/-- Witness for C1's amended theorem: a single `W` land against the
required set `['W']` with a one-attempt budget (a feasible hand). -/
theorem c1_tap_search_amended_witness :
    (check_availability ['W'] ⟨0, 0, 0⟩ ["W"]).1 = true ∧
    analyze_tap_options ['W'] 1 ["W"] (fun _ _ => 0) ⟨0, 0, 0⟩ = some ⟨1, 0, 0⟩ ∧
    ((∃ j < 1,
      (∃ av, tapAttempt ['W'] ((fun _ _ => 0) j) ["W"] 0 [] = some av ∧
        av.length = (['W'] : List Char).length) ∧
      (∀ m < j, ∀ av, tapAttempt ['W'] ((fun _ _ => 0) m) ["W"] 0 [] = some av →
        av.length ≠ (['W'] : List Char).length) ∧
      (⟨1, 0, 0⟩ : SimState) = ⟨0 + 1, 0, 0 + j⟩) ∨
    ((∀ m < 1, ∀ av, tapAttempt ['W'] ((fun _ _ => 0) m) ["W"] 0 [] = some av →
        av.length ≠ (['W'] : List Char).length) ∧
      (⟨1, 0, 0⟩ : SimState) = ⟨0, 0, 0 + 1⟩)) :=
  ⟨by decide, by decide,
    c1_tap_search_amended ['W'] 1 ["W"] (fun _ _ => 0) ⟨0, 0, 0⟩ ⟨1, 0, 0⟩
      (by decide) (by decide)⟩

/-- Membership after the symbol-collecting loop: exactly the old
entries plus the new non-`C` symbols. -/
theorem mem_addColorsL (c : Char) :
    ∀ (cs : List Char) (acc : List Char),
      c ∈ addColorsL acc cs ↔ c ∈ acc ∨ (c ∈ cs ∧ c ≠ 'C') := by
  intro cs
  induction cs with
  | nil =>
    intro acc
    simp [addColorsL]
  | cons d rest ih =>
    intro acc
    show c ∈ addColorsL (if d ∉ acc ∧ d ≠ 'C' then acc ++ [d] else acc) rest ↔ _
    by_cases hd : d ∉ acc ∧ d ≠ 'C'
    · rw [if_pos hd, ih]
      simp only [List.mem_append, List.mem_cons, List.not_mem_nil, or_false]
      constructor
      · rintro ((h1 | h1) | ⟨h1, h2⟩)
        · exact Or.inl h1
        · exact Or.inr ⟨Or.inl h1, h1 ▸ hd.2⟩
        · exact Or.inr ⟨Or.inr h1, h2⟩
      · rintro (h1 | ⟨h1 | h1, h2⟩)
        · exact Or.inl (Or.inl h1)
        · exact Or.inl (Or.inr h1)
        · exact Or.inr ⟨h1, h2⟩
    · rw [if_neg hd, ih]
      constructor
      · rintro (h1 | ⟨h1, h2⟩)
        · exact Or.inl h1
        · exact Or.inr ⟨List.mem_cons_of_mem d h1, h2⟩
      · rintro (h1 | ⟨h1, h2⟩)
        · exact Or.inl h1
        · rcases List.mem_cons.mp h1 with h3 | h3
          · rcases not_and_or.mp hd with h4 | h4
            · exact Or.inl (h3 ▸ not_not.mp h4)
            · exact absurd (h3.trans (not_not.mp h4)) h2
          · exact Or.inr ⟨h3, h2⟩

/-- The symbol-collecting loop preserves freedom from duplicates. -/
theorem nodup_addColorsL :
    ∀ (cs : List Char) (acc : List Char), acc.Nodup → (addColorsL acc cs).Nodup := by
  intro cs
  induction cs with
  | nil => intro acc h; exact h
  | cons d rest ih =>
    intro acc h
    show (addColorsL (if d ∉ acc ∧ d ≠ 'C' then acc ++ [d] else acc) rest).Nodup
    by_cases hd : d ∉ acc ∧ d ≠ 'C'
    · rw [if_pos hd]
      refine ih _ ?_
      simp [List.nodup_append, h, hd.1]
    · rw [if_neg hd]
      exact ih acc h

/-- A duplicate-free list of five real colors contains every real
color. -/
theorem five_subset_mem (acc : List Char) (hnd : acc.Nodup)
    (hsub : ∀ c ∈ acc, c ∈ colors5) (hlen : acc.length = 5) :
    ∀ c ∈ colors5, c ∈ acc := by
  intro c hc
  have h1 : acc.toFinset ⊆ colors5.toFinset := by
    intro x hx
    exact List.mem_toFinset.mpr (hsub x (List.mem_toFinset.mp hx))
  have h2 : colors5.toFinset.card ≤ acc.toFinset.card := by
    rw [List.toFinset_card_of_nodup hnd, hlen]
    decide
  have h3 := Finset.eq_of_subset_of_card_le h1 h2
  have h4 : c ∈ colors5.toFinset := List.mem_toFinset.mpr hc
  rw [← h3] at h4
  exact List.mem_toFinset.mp h4

/-- Invariants of the `get_color_id` loop: the accumulated list stays
duplicate-free, stays inside the five real colors, and contains
exactly the old entries plus the non-`C` symbols of the labels other
than `WUBRG` with nonzero count. -/
theorem get_color_id_go_props :
    ∀ (lb : List (String × Nat)) (acc : List Char),
      (∀ p ∈ lb, ∀ c ∈ p.1.toList, c = 'C' ∨ c ∈ colors5) →
      acc.Nodup → (∀ c ∈ acc, c ∈ colors5) →
      (get_color_id_go lb acc).Nodup ∧
      (∀ c ∈ get_color_id_go lb acc, c ∈ colors5) ∧
      (∀ c, c ∈ get_color_id_go lb acc ↔
        c ∈ acc ∨ (c ≠ 'C' ∧ ∃ p ∈ lb, p.1 ≠ "WUBRG" ∧ p.2 ≠ 0 ∧ c ∈ p.1.toList)) := by
  intro lb
  induction lb with
  | nil =>
    intro acc _ hnd hsub
    refine ⟨hnd, hsub, ?_⟩
    intro c
    simp [get_color_id_go]
  | cons p rest ih =>
    intro acc hchars hnd hsub
    obtain ⟨land, number⟩ := p
    have hchars_head : ∀ c ∈ land.toList, c = 'C' ∨ c ∈ colors5 :=
      hchars (land, number) (List.mem_cons_self _ _)
    have hchars_rest : ∀ q ∈ rest, ∀ c ∈ q.1.toList, c = 'C' ∨ c ∈ colors5 :=
      fun q hq => hchars q (List.mem_cons_of_mem _ hq)
    have heq : get_color_id_go ((land, number) :: rest) acc =
        if land ≠ "WUBRG" ∧ number ≠ 0 then
          (if (addColors acc land).length = 5 then addColors acc land
           else get_color_id_go rest (addColors acc land))
        else get_color_id_go rest acc := rfl
    by_cases hcond : land ≠ "WUBRG" ∧ number ≠ 0
    · rw [heq, if_pos hcond]
      have hnd2 : (addColors acc land).Nodup := nodup_addColorsL _ acc hnd
      have hmem2 : ∀ c, c ∈ addColors acc land ↔ c ∈ acc ∨ (c ∈ land.toList ∧ c ≠ 'C') :=
        fun c => mem_addColorsL c land.toList acc
      have hsub2 : ∀ c ∈ addColors acc land, c ∈ colors5 := by
        intro c hc
        rcases (hmem2 c).mp hc with h1 | ⟨h1, h2⟩
        · exact hsub c h1
        · rcases hchars_head c h1 with h3 | h3
          · exact absurd h3 h2
          · exact h3
      by_cases hlen : (addColors acc land).length = 5
      · rw [if_pos hlen]
        refine ⟨hnd2, hsub2, ?_⟩
        intro c
        constructor
        · intro hc
          rcases (hmem2 c).mp hc with h1 | ⟨h1, h2⟩
          · exact Or.inl h1
          · exact Or.inr ⟨h2, (land, number), List.mem_cons_self _ _, hcond.1, hcond.2, h1⟩
        · rintro (h1 | ⟨hne, q, hq, hq1, hq2, hq3⟩)
          · exact (hmem2 c).mpr (Or.inl h1)
          · rcases List.mem_cons.mp hq with h3 | h3
            · subst h3
              exact (hmem2 c).mpr (Or.inr ⟨hq3, hne⟩)
            · have h4 : c ∈ colors5 := by
                rcases hchars_rest q h3 c hq3 with h5 | h5
                · exact absurd h5 hne
                · exact h5
              exact five_subset_mem _ hnd2 hsub2 hlen c h4
      · rw [if_neg hlen]
        obtain ⟨ihnd, ihsub, ihiff⟩ := ih (addColors acc land) hchars_rest hnd2 hsub2
        refine ⟨ihnd, ihsub, ?_⟩
        intro c
        rw [ihiff c]
        constructor
        · rintro (h1 | ⟨hne, q, hq, hq1, hq2, hq3⟩)
          · rcases (hmem2 c).mp h1 with h2 | ⟨h2, h3⟩
            · exact Or.inl h2
            · exact Or.inr ⟨h3, (land, number), List.mem_cons_self _ _, hcond.1, hcond.2, h2⟩
          · exact Or.inr ⟨hne, q, List.mem_cons_of_mem _ hq, hq1, hq2, hq3⟩
        · rintro (h1 | ⟨hne, q, hq, hq1, hq2, hq3⟩)
          · exact Or.inl ((hmem2 c).mpr (Or.inl h1))
          · rcases List.mem_cons.mp hq with h3 | h3
            · subst h3
              exact Or.inl ((hmem2 c).mpr (Or.inr ⟨hq3, hne⟩))
            · exact Or.inr ⟨hne, q, h3, hq1, hq2, hq3⟩
    · rw [heq, if_neg hcond]
      obtain ⟨ihnd, ihsub, ihiff⟩ := ih acc hchars_rest hnd hsub
      refine ⟨ihnd, ihsub, ?_⟩
      intro c
      rw [ihiff c]
      constructor
      · rintro (h1 | ⟨hne, q, hq, hq1, hq2, hq3⟩)
        · exact Or.inl h1
        · exact Or.inr ⟨hne, q, List.mem_cons_of_mem _ hq, hq1, hq2, hq3⟩
      · rintro (h1 | ⟨hne, q, hq, hq1, hq2, hq3⟩)
        · exact Or.inl h1
        · rcases List.mem_cons.mp hq with h3 | h3
          · subst h3
            exact absurd ⟨hq1, hq2⟩ hcond
          · exact Or.inr ⟨hne, q, h3, hq1, hq2, hq3⟩

/-- Claim C3 (amended): for every land base over the `WUBRGC` symbol
alphabet, the derived required color set has at most 5 colors and
equals the union of the color symbols of all labels with nonzero
count EXCLUDING the entire `WUBRG` label (whose symbols do not
contribute, contrary to the claim) and excluding the symbol `C`. -/
theorem c3_required_colors_amended (lb : List (String × Nat))
    (hchars : ∀ p ∈ lb, ∀ c ∈ p.1.toList, c = 'C' ∨ c ∈ colors5) :
    (get_color_id lb).length ≤ 5 ∧
    ∀ c, c ∈ get_color_id lb ↔
      (c ≠ 'C' ∧ ∃ p ∈ lb, p.1 ≠ "WUBRG" ∧ p.2 ≠ 0 ∧ c ∈ p.1.toList) := by
  obtain ⟨hnd, hsub, hiff⟩ :=
    get_color_id_go_props lb [] hchars List.nodup_nil (by simp)
  constructor
  · have h1 : (get_color_id lb).toFinset.card = (get_color_id lb).length :=
      List.toFinset_card_of_nodup hnd
    have h2 : (get_color_id lb).toFinset ⊆ colors5.toFinset := by
      intro x hx
      exact List.mem_toFinset.mpr (hsub x (List.mem_toFinset.mp hx))
    have h3 := Finset.card_le_card h2
    have h4 : colors5.toFinset.card = 5 := by decide
    omega
  · intro c
    have := hiff c
    simpa using this

/-- Witness for C3's amended theorem on a small base of two `WU` lands
and one colorless land. -/
theorem c3_required_colors_witness :
    (∀ p ∈ lb_c3w, ∀ c ∈ p.1.toList, c = 'C' ∨ c ∈ colors5) ∧
    ((get_color_id lb_c3w).length ≤ 5 ∧
     ∀ c, c ∈ get_color_id lb_c3w ↔
       (c ≠ 'C' ∧ ∃ p ∈ lb_c3w, p.1 ≠ "WUBRG" ∧ p.2 ≠ 0 ∧ c ∈ p.1.toList)) :=
  ⟨by decide, c3_required_colors_amended lb_c3w (by decide)⟩

/-- The tap loop leaves `impossible` unchanged, increments
`successful` at most once and adds at most `max maxT (n + r)` to
`total_tries`. -/
theorem tapLoop_counters (dc : List Char) (maxT : Nat) (draws : List String)
    (tape : Nat → Nat → Nat) (s : SimState) :
    ∀ (r n : Nat) (s2 : SimState), tapLoop dc maxT draws tape n r s = some s2 →
      s2.impossible = s.impossible ∧ s2.successful ≤ s.successful + 1 ∧
      s2.total_tries ≤ s.total_tries + max maxT (n + r) := by
  intro r
  induction r with
  | zero =>
    intro n s2 h
    obtain rfl := (Option.some.inj h).symm
    refine ⟨rfl, by simp, ?_⟩
    exact Nat.add_le_add_left (Nat.le_max_left _ _) _
  | succ r ih =>
    intro n s2 h
    have h2 : (match tapAttempt dc (tape n) draws 0 [] with
      | none => none
      | some available =>
        if available.length = dc.length then
          some { s with successful := s.successful + 1, total_tries := s.total_tries + n }
        else tapLoop dc maxT draws tape (n + 1) r s) = some s2 := h
    cases hatt : tapAttempt dc (tape n) draws 0 [] with
    | none =>
      rw [hatt] at h2
      have h3 : (none : Option SimState) = some s2 := h2
      exact absurd h3 (by simp)
    | some av =>
      rw [hatt] at h2
      have h3 : (if av.length = dc.length then
          some { s with successful := s.successful + 1, total_tries := s.total_tries + n }
        else tapLoop dc maxT draws tape (n + 1) r s) = some s2 := h2
      by_cases hlen : av.length = dc.length
      · rw [if_pos hlen] at h3
        obtain rfl := (Option.some.inj h3).symm
        refine ⟨rfl, Nat.le_refl _, ?_⟩
        have h4 : n ≤ max maxT (n + (r + 1)) := le_trans (by omega) (Nat.le_max_right maxT _)
        exact Nat.add_le_add_left h4 _
      · rw [if_neg hlen] at h3
        obtain ⟨ha, hb, hc⟩ := ih (n + 1) s2 h3
        refine ⟨ha, hb, ?_⟩
        have h5 : n + 1 + r = n + (r + 1) := by omega
        rw [h5] at hc
        exact hc

/-- The three possible outcomes of the feasibility check. -/
theorem check_availability_cases (dc : List Char) (s : SimState) (draws : List String) :
    check_availability dc s draws = (true, s) ∨
    check_availability dc s draws = (false, s) ∨
    check_availability dc s draws = (false, { s with impossible := s.impossible + 1 }) := by
  have heq : check_availability dc s draws =
      if draws.length < dc.length then (false, s)
      else if dc.all
          (fun c => decide (c ∈ draws.foldl (fun acc d => acc ++ d.toList) [])) then
        (true, s)
      else (false, { s with impossible := s.impossible + 1 }) := rfl
  rw [heq]
  split_ifs
  · exact Or.inr (Or.inl rfl)
  · exact Or.inl rfl
  · exact Or.inr (Or.inr rfl)

/-- One trial increments `successful` and `impossible` by at most one
each and respects the budget `maxT` on the potential
`total_tries + maxT * impossible`. -/
theorem runTrial_counters (dc : List Char) (maxT nLands : Nat) (deck : List String)
    (tape : Nat → Nat → Nat) (s s2 : SimState)
    (h : runTrial dc maxT nLands deck tape s = some s2) :
    s2.successful ≤ s.successful + 1 ∧ s.impossible ≤ s2.impossible ∧
    s2.impossible ≤ s.impossible + 1 ∧
    s2.total_tries + maxT * s2.impossible ≤ s.total_tries + maxT * s.impossible + maxT := by
  have h2 : (if (check_availability dc s (deck.take nLands)).1 then
      analyze_tap_options dc maxT (deck.take nLands) tape
        (check_availability dc s (deck.take nLands)).2
    else some (check_availability dc s (deck.take nLands)).2) = some s2 := h
  rcases check_availability_cases dc s (deck.take nLands) with hc | hc | hc
  · rw [hc] at h2
    have h3 : analyze_tap_options dc maxT (deck.take nLands) tape s = some s2 := h2
    obtain ⟨ha, hb, hcc⟩ := tapLoop_counters dc maxT (deck.take nLands) tape s maxT 0 s2 h3
    have h5 : s2.total_tries ≤ s.total_tries + maxT := by simpa using hcc
    refine ⟨hb, le_of_eq ha.symm, by omega, ?_⟩
    rw [ha]
    linarith
  · rw [hc] at h2
    have h3 : some s = some s2 := h2
    obtain rfl := (Option.some.inj h3).symm
    exact ⟨Nat.le_succ _, Nat.le_refl _, Nat.le_succ _, Nat.le_add_right _ _⟩
  · rw [hc] at h2
    have h3 : some { s with impossible := s.impossible + 1 } = some s2 := h2
    obtain rfl := (Option.some.inj h3).symm
    refine ⟨Nat.le_succ _, Nat.le_succ _, Nat.le_refl _, ?_⟩
    exact le_of_eq (by ring)

/-- Over `k` trials, `successful` and `impossible` grow by at most `k`
and the potential `total_tries + maxT * impossible` by at most
`maxT * k`. -/
theorem runTrials_counters (dc : List Char) (maxT nLands : Nat)
    (shuffles : Nat → List String) (tapes : Nat → Nat → Nat → Nat) :
    ∀ (k t : Nat) (s s2 : SimState),
      runTrials dc maxT nLands shuffles tapes t k s = some s2 →
      s2.successful ≤ s.successful + k ∧ s2.impossible ≤ s.impossible + k ∧
      s2.total_tries + maxT * s2.impossible ≤
        s.total_tries + maxT * s.impossible + maxT * k := by
  intro k
  induction k with
  | zero =>
    intro t s s2 h
    obtain rfl := (Option.some.inj h).symm
    exact ⟨by omega, by omega, by simp⟩
  | succ k ih =>
    intro t s s2 h
    have h2 : (match runTrial dc maxT nLands (shuffles t) (tapes t) s with
      | none => none
      | some s1 => runTrials dc maxT nLands shuffles tapes (t + 1) k s1) = some s2 := h
    cases htr : runTrial dc maxT nLands (shuffles t) (tapes t) s with
    | none =>
      rw [htr] at h2
      have h3 : (none : Option SimState) = some s2 := h2
      exact absurd h3 (by simp)
    | some s1 =>
      rw [htr] at h2
      have h3 : runTrials dc maxT nLands shuffles tapes (t + 1) k s1 = some s2 := h2
      obtain ⟨ha, hb, hcc, hd⟩ := runTrial_counters dc maxT nLands (shuffles t) (tapes t) s s1 htr
      obtain ⟨ia, ib, ic⟩ := ih (t + 1) s1 s2 h3
      refine ⟨by omega, by omega, ?_⟩
      have h5 : maxT * (k + 1) = maxT * k + maxT := by ring
      rw [h5]
      linarith

/-- Rounding to two decimals is monotone. -/
theorem round2_mono {x y : Rat} (h : x ≤ y) : round2 x ≤ round2 y := by
  unfold round2
  gcongr

/-- Claim C9: every pair of statistics actually reported by a
completed run satisfies `0 ≤ successRate ≤ 100` and
`0 ≤ averageAttempts ≤ maxTapAttempts`. -/
theorem c9_statistics_bounds (lb : List (String × Nat)) (nLands nSims maxT : Nat)
    (shuffles : Nat → List String) (tapes : Nat → Nat → Nat → Nat) (avg rate : Rat)
    (h : run_simulation lb nLands nSims maxT shuffles tapes = some (avg, rate)) :
    0 ≤ rate ∧ rate ≤ 100 ∧ 0 ≤ avg ∧ avg ≤ (maxT : Rat) := by
  rw [run_simulation] at h
  cases hrt : runTrials (get_color_id lb) maxT nLands shuffles tapes 0 nSims ⟨0, 0, 0⟩ with
  | none =>
    rw [hrt] at h
    exact absurd h (by simp)
  | some s =>
    rw [hrt] at h
    simp only [Option.some_bind, reportStats] at h
    by_cases hden : ((nSims : Int) - (s.impossible : Int)) = 0
    · rw [if_pos hden] at h
      exact absurd h (by simp)
    · rw [if_neg hden] at h
      have h2 := Option.some.inj h
      have havg : round2 ((s.total_tries : Rat) /
          (((nSims : Int) - (s.impossible : Int) : Int) : Rat)) = avg :=
        congrArg Prod.fst h2
      have hrate : round2 ((s.successful : Rat) * 100 / (nSims : Rat)) = rate :=
        congrArg Prod.snd h2
      obtain ⟨hsucc, himp, htot⟩ :=
        runTrials_counters (get_color_id lb) maxT nLands shuffles tapes nSims 0 ⟨0, 0, 0⟩ s hrt
      have himp2 : s.impossible ≤ nSims := by simpa using himp
      have hsucc2 : s.successful ≤ nSims := by simpa using hsucc
      have htot2 : s.total_tries + maxT * s.impossible ≤ maxT * nSims := by simpa using htot
      have hlt : s.impossible < nSims := by omega
      have hnpos : 0 < nSims := by omega
      have hdpos : (0 : Rat) < (((nSims : Int) - (s.impossible : Int) : Int) : Rat) := by
        have h6 : (0 : Int) < (nSims : Int) - (s.impossible : Int) := by omega
        exact_mod_cast h6
      have havg0 : 0 ≤ (s.total_tries : Rat) /
          (((nSims : Int) - (s.impossible : Int) : Int) : Rat) :=
        div_nonneg (by positivity) hdpos.le
      have havg1 : (s.total_tries : Rat) /
          (((nSims : Int) - (s.impossible : Int) : Int) : Rat) ≤ (maxT : Rat) := by
        rw [div_le_iff₀ hdpos]
        have hcast : (s.total_tries : Rat) + (maxT : Rat) * (s.impossible : Rat) ≤
            (maxT : Rat) * (nSims : Rat) := by exact_mod_cast htot2
        have hdenval : (((nSims : Int) - (s.impossible : Int) : Int) : Rat) =
            (nSims : Rat) - (s.impossible : Rat) := by push_cast; ring
        rw [hdenval]
        have h7 : (maxT : Rat) * ((nSims : Rat) - (s.impossible : Rat)) =
            (maxT : Rat) * (nSims : Rat) - (maxT : Rat) * (s.impossible : Rat) := by ring
        rw [h7]
        linarith
      have hknpos : (0 : Rat) < (nSims : Rat) := by exact_mod_cast hnpos
      have hrate0 : 0 ≤ (s.successful : Rat) * 100 / (nSims : Rat) := by positivity
      have hrate1 : (s.successful : Rat) * 100 / (nSims : Rat) ≤ 100 := by
        rw [div_le_iff₀ hknpos]
        have hcast2 : (s.successful : Rat) ≤ (nSims : Rat) := by exact_mod_cast hsucc2
        linarith
      refine ⟨?_, ?_, ?_, ?_⟩
      · rw [← hrate, ← round2_zero]
        exact round2_mono hrate0
      · rw [← hrate]
        calc round2 ((s.successful : Rat) * 100 / (nSims : Rat)) ≤
              round2 (((100 : Nat) : Rat)) := round2_mono (le_trans hrate1 (by norm_num))
          _ = ((100 : Nat) : Rat) := round2_natCast 100
          _ = 100 := by norm_num
      · rw [← havg, ← round2_zero]
        exact round2_mono havg0
      · rw [← havg]
        calc round2 ((s.total_tries : Rat) /
              (((nSims : Int) - (s.impossible : Int) : Int) : Rat)) ≤
              round2 ((maxT : Rat)) := round2_mono havg1
          _ = (maxT : Rat) := round2_natCast maxT

/-- Evaluation of the one-trial run on `lb_w1`: one success on the
first attempt, reported as average 0 attempts and a 100 percent
success rate. -/
theorem run_w1_eval :
    run_simulation lb_w1 1 1 2 (fun _ => ["W"]) (fun _ _ _ => 0) = some (0, 100) := by
  have h1 : runTrials (get_color_id lb_w1) 2 1 (fun _ => ["W"]) (fun _ _ _ => 0) 0 1 ⟨0, 0, 0⟩ =
      some ⟨1, 0, 0⟩ := by decide
  rw [run_simulation, h1]
  simp only [Option.some_bind, reportStats]
  norm_num
  constructor
  · simpa using round2_natCast 0
  · simpa using round2_natCast 100

/-- Witness for C9 at the one-trial run on `lb_w1`. -/
theorem c9_statistics_bounds_witness :
    run_simulation lb_w1 1 1 2 (fun _ => ["W"]) (fun _ _ _ => 0) = some (0, 100) ∧
    (0 ≤ (100 : Rat) ∧ (100 : Rat) ≤ 100 ∧ 0 ≤ (0 : Rat) ∧ (0 : Rat) ≤ ((2 : Nat) : Rat)) :=
  ⟨run_w1_eval,
    c9_statistics_bounds lb_w1 1 1 2 (fun _ => ["W"]) (fun _ _ _ => 0) 0 100 run_w1_eval⟩

end ManaCalc
